import Mathlib

/-! Verification development for the statiegeldNederland repository.

The definitions below are a shallow embedding of the CHR settlement-file
parsing and aggregation code (services/bag_service.py, app.py) and of the
spreadsheet-ledger reconciliation and registration code
(services/sheet_service.py, sheetsmanager.py, app.py).  Monetary amounts
are modelled as exact rationals, spreadsheet cells as strings, the sheet
itself as a list of rows (each a list of cell strings), and fallible
Python code as Option or Except values.  The Python string primitives
used by the code (split, strip, replace, slicing, ordering, int and float
parsing, ord) are defined here over character lists so that every
definition evaluates inside the kernel. -/

set_option autoImplicit false

namespace Statiegeld

universe u v

instance {ε : Type u} {α : Type v} [DecidableEq ε] [DecidableEq α] :
    DecidableEq (Except ε α) := fun x y =>
  match x, y with
  | Except.ok a, Except.ok b =>
    if h : a = b then isTrue (by rw [h]) else isFalse (by intro hh; cases hh; exact h rfl)
  | Except.error a, Except.error b =>
    if h : a = b then isTrue (by rw [h]) else isFalse (by intro hh; cases hh; exact h rfl)
  | Except.ok _, Except.error _ => isFalse (by intro hh; cases hh)
  | Except.error _, Except.ok _ => isFalse (by intro hh; cases hh)

/-- First index at which the predicate holds, mirroring a Python
loop over enumerate(xs) that returns at the first hit. -/
def firstIdx {α : Type u} (p : α → Bool) : List α → Option ℕ
  | [] => none
  | x :: xs => if p x then some 0 else (firstIdx p xs).map (· + 1)

/-- Python str.split(sep) on a character list: separators delimit
(possibly empty) chunks, and the empty string yields one empty chunk. -/
def splitChars (sep : Char) : List Char → List (List Char)
  | [] => [[]]
  | c :: cs =>
    if c = sep then [] :: splitChars sep cs
    else
      match splitChars sep cs with
      | [] => [[c]]
      | l :: ls => (c :: l) :: ls

/-- Python str.split(sep) for a one-character separator. -/
def pySplit (sep : Char) (s : String) : List String :=
  (splitChars sep s.data).map String.mk

/-- The whitespace characters recognised by Python str.strip(). -/
def pyIsSpace (c : Char) : Bool :=
  c = ' ' ∨ c = '\t' ∨ c = '\n' ∨ c = '\r' ∨ c = '\x0b' ∨ c = '\x0c'

/-- Python str.strip(): drop leading and trailing whitespace. -/
def pyStrip (s : String) : String :=
  String.mk (((s.data.dropWhile pyIsSpace).reverse.dropWhile pyIsSpace).reverse)

/-- Python s.replace(old, new) for one-character arguments. -/
def pyReplace (s : String) (old new : Char) : String :=
  String.mk (s.data.map (fun c => if c = old then new else c))

/-- Python s[1:]: drop the first character. -/
def pyDropFirst (s : String) : String :=
  String.mk s.data.tail

/-- Lexicographic comparison of character lists by code point, the order
Python uses for str comparison. -/
def charsLt : List Char → List Char → Bool
  | [], [] => false
  | [], _ :: _ => true
  | _ :: _, [] => false
  | a :: as, b :: bs => if a < b then true else if b < a then false else charsLt as bs

/-- Python string strict comparison a < b. -/
def pyStrLt (a b : String) : Bool :=
  charsLt a.data b.data

/-- Numeric value of a digit character. -/
def digitVal (c : Char) : ℕ := c.toNat - 48

/-- Numeric value of a digit character list, most significant digit
first. -/
def digitsVal (l : List Char) : ℕ :=
  l.foldl (fun a c => 10 * a + digitVal c) 0

/-- Parse a nonempty all-digit character list, as Python int does with the
digit part of a decimal numeral; none corresponds to a ValueError. -/
def parseDigits (l : List Char) : Option ℕ :=
  if l ≠ [] ∧ l.all Char.isDigit then some (digitsVal l) else none

/-- Python int(s) on decimal numerals: surrounding whitespace allowed,
optional sign, then digits.  Returns none where int() raises ValueError. -/
def pyInt (s : String) : Option ℤ :=
  match (pyStrip s).data with
  | '-' :: rest => (parseDigits rest).map (fun n => -(n : ℤ))
  | '+' :: rest => (parseDigits rest).map (fun n => (n : ℤ))
  | l => (parseDigits l).map (fun n => (n : ℤ))

/-- Value of an unsigned decimal literal split as integer and fraction
digits. -/
def fracVal (intPart fracPart : List Char) : ℚ :=
  (digitsVal intPart : ℚ) + (digitsVal fracPart : ℚ) / (10 : ℚ) ^ fracPart.length

/-- Unsigned part of Python float parsing: digits with at most one decimal
point and at least one digit overall. -/
def parseUnsignedFloat (l : List Char) : Option ℚ :=
  match l.dropWhile (· ≠ '.') with
  | [] => (parseDigits (l.takeWhile (· ≠ '.'))).map (fun n => (n : ℚ))
  | _ :: fracPart =>
    let intPart := l.takeWhile (· ≠ '.')
    if (intPart ≠ [] ∨ fracPart ≠ []) ∧ intPart.all Char.isDigit ∧ fracPart.all Char.isDigit then
      some (fracVal intPart fracPart)
    else none

/-- Python float(s) on the plain decimal forms occurring in CHR amount
fields (optional sign, digits, optional single decimal point; exponent,
inf and nan spellings do not occur there).  none corresponds to a
ValueError, which aborts the processing of the whole file. -/
def pyFloat (s : String) : Option ℚ :=
  match (pyStrip s).data with
  | '-' :: rest => (parseUnsignedFloat rest).map (fun q => -q)
  | '+' :: rest => parseUnsignedFloat rest
  | l => parseUnsignedFloat l

/-- One defaultdict(float) update, bags[k] += q: the first entry with the
given key is updated in place, a missing key is appended at the end
(Python dicts preserve insertion order). -/
def addToBags : List (String × ℚ) → String → ℚ → List (String × ℚ)
  | [], k, q => [(k, q)]
  | (k0, a) :: rest, k, q =>
    if k0 = k then (k0, a + q) :: rest else (k0, a) :: addToBags rest k q

/-- Aggregated amount recorded for a key, 0 when the key is absent. -/
def bagAmount (bags : List (String × ℚ)) (k : String) : ℚ :=
  match bags.find? (fun e => e.1 == k) with
  | some e => e.2
  | none => 0

/-- Accumulator state of the line loop in
BagService.process_chr_content: processed line count, per-bag totals in
first-seen order, and the running grand total. -/
structure ChrState where
  processedLines : ℕ
  bags : List (String × ℚ)
  totalMoney : ℚ
  deriving Repr, DecidableEq

/-- One iteration of the line loop of BagService.process_chr_content
(services/bag_service.py lines 42-53): lines that strip to nothing are
skipped, a line with more than 10 semicolon fields whose field 8 minus
its first character differs from "50" has field 10 (comma normalised to a
point) parsed and added to its bag total and to the grand total; a float
parse failure raises ValueError, aborting the whole file. -/
def processLine (st : ChrState) (line : String) : Except String ChrState :=
  if pyStrip line = "" then Except.ok st
  else
    let values := pySplit ';' line
    let st1 : ChrState := { st with processedLines := st.processedLines + 1 }
    if 10 < values.length ∧ pyDropFirst (values.getD 8 "") ≠ "50" then
      match pyFloat (pyReplace (values.getD 10 "") ',' '.') with
      | some q =>
        Except.ok { st1 with
          bags := addToBags st1.bags (values.getD 5 "") q,
          totalMoney := st1.totalMoney + q }
      | none => Except.error "Invalid CHR file format: could not convert string to float"
    else Except.ok st1

/-- BagService.process_chr_content: split the content on line feeds, take
the processing date from field 7 of the first line (an IndexError there is
re-raised as ValueError), then run the line loop.  The result tuple is
(processed line count, bag list, grand total, processing date). -/
def process_chr_content (content : String) :
    Except String (ℕ × List (String × ℚ) × ℚ × String) :=
  let lines := pySplit '\n' content
  match lines with
  | [] => Except.error "Invalid CHR file format: empty file content"
  | l0 :: _ =>
    let fields0 := pySplit ';' l0
    if h7 : 7 < fields0.length then
      let processingDate := fields0.get ⟨7, h7⟩
      match lines.foldlM processLine ⟨0, [], 0⟩ with
      | Except.ok st => Except.ok (st.processedLines, st.bags, st.totalMoney, processingDate)
      | Except.error e => Except.error e
    else Except.error "Invalid CHR file format: list index out of range"

/-- Cell test of SheetsManager.find_row_by_value: the row reaches the
searched column and the cell there equals the searched value exactly. -/
def matchesCell (v : String) (col : ℕ) (row : List String) : Bool :=
  decide (col < row.length) && (row.getD col "" == v)

/-- SheetsManager.find_row_by_value (sheetsmanager.py lines 81-101): the
1-based row number of the first exact match in the given column, scanning
every row from the top, the header row included. -/
def find_row_by_value (rows : List (List String)) (v : String) (col : ℕ) : Option ℕ :=
  (firstIdx (matchesCell v col) rows).map (· + 1)

/-- Comparison used by the insert-position scan: integer comparison when
both values parse as Python ints, Python string comparison otherwise. -/
def pyGtCmp (cell target : String) : Bool :=
  match pyInt cell, pyInt target with
  | some c, some t => decide (t < c)
  | _, _ => pyStrLt target cell

/-- Loop-body condition of find_insert_position: the row reaches the key
column, the cell there is nonempty (Python truthiness), and it compares
strictly greater than the target. -/
def isGreaterRow (target : String) (col : ℕ) (row : List String) : Bool :=
  decide (col < row.length) && !(row.getD col "" == "") && pyGtCmp (row.getD col "") target

/-- find_insert_position (app.py lines 76-122, identical logic in
SheetService._find_insert_position): scan the data rows (header skipped;
the row at 0-based data index i is 1-based sheet row i + 2) for the first
row whose key cell is strictly greater than the target, falling back to
one past the last existing row. -/
def find_insert_position (data : List (List String)) (target : String) (col : ℕ) : ℕ :=
  match firstIdx (isGreaterRow target col) (data.drop 1) with
  | some i => i + 2
  | none => data.length + 1

/-- Overwrite cells of a row from a start column on, extending the row
with empty cells when it is shorter, as the spreadsheet backend does. -/
def setCellsFrom (row : List String) (start : ℕ) (vals : List String) : List String :=
  (row ++ List.replicate (start + vals.length - row.length) "").take start ++ vals ++
    (row ++ List.replicate (start + vals.length - row.length) "").drop (start + vals.length)

/-- write_to_sheet over the range E{r}:G{r}: replace cells 4-6 (0-based)
of the 1-based row r. -/
def writeEG (rows : List (List String)) (r : ℕ) (vals : List String) : List (List String) :=
  rows.set (r - 1) (setCellsFrom (rows.getD (r - 1) []) 4 vals)

/-- SheetsManager.insert_row (sheetsmanager.py lines 137-186): insert a
populated row before 1-based row number p, shifting subsequent rows
down. -/
def insert_row (rows : List (List String)) (p : ℕ) (row : List String) : List (List String) :=
  rows.take (p - 1) ++ row :: rows.drop (p - 1)

/-- SheetsManager._index_to_column_letter.  The Python loop runs while
index >= 0, prepending chr(index % 26 + ord of A) and continuing with
index // 26 - 1; since that next value is strictly smaller, the loop runs
at most index + 1 times, so the fuel argument of this helper, always
called with at least the current index, never runs out before the loop
ends. -/
def index_to_column_letter_go : ℕ → ℕ → String
  | 0, index => String.mk [Char.ofNat (index % 26 + 65)]
  | fuel + 1, index =>
    if index < 26 then String.mk [Char.ofNat (index % 26 + 65)]
    else index_to_column_letter_go fuel (index / 26 - 1) ++ String.mk [Char.ofNat (index % 26 + 65)]

/-- 0-based column index to column letters A, B, ..., Z, AA, AB, ... -/
def index_to_column_letter (index : ℕ) : String :=
  index_to_column_letter_go index index

/-- Python dict assignment d[k] = v: replace the value at an existing key
in place, otherwise append the binding. -/
def dictInsert : List (String × String) → String → String → List (String × String)
  | [], k, val => [(k, val)]
  | (k0, v0) :: rest, k, val =>
    if k0 = k then (k0, val) :: rest else (k0, v0) :: dictInsert rest k val

/-- Python dict lookup; keys are unique, so the first match decides. -/
def dictFind (d : List (String × String)) (k : String) : Option String :=
  (d.find? (fun e => e.1 == k)).map Prod.snd

/-- Index-carrying loop of SheetsManager.get_column_names: map every
nonempty header cell, stripped, to its column letter; a later duplicate
name overwrites an earlier one exactly as a Python dict assignment
does. -/
def get_column_names_go : List String → ℕ → List (String × String) → List (String × String)
  | [], _, acc => acc
  | c :: cs, i, acc =>
    get_column_names_go cs (i + 1)
      (if c = "" then acc else dictInsert acc (pyStrip c) (index_to_column_letter i))

/-- SheetsManager.get_column_names applied to the header row. -/
def get_column_names (header : List String) : List (String × String) :=
  get_column_names_go header 0 []

/-- Python ord(s): the code point of a one-character string; none models
the TypeError raised on any other length. -/
def pyOrd (s : String) : Option ℕ :=
  match s.data with
  | [c] => some c.toNat
  | _ => none

/-- The expression ord(column_letter) - ord of A, used by app.update_sheet,
SheetService.update_bags_in_sheet and SheetService.register_bag to turn a
column letter from the mapping back into a 0-based index (the letters the
mapping produces never sort below A, so natural subtraction is exact). -/
def colIndexOfLetter (letter : String) : Option ℕ :=
  (pyOrd letter).map (fun n => n - 65)

/-- SheetService._update_or_insert_bag over the pure sheet state: update
cells E-G of the first row matching the bag id, or insert the fresh row
[id, empty, empty, empty, X, date, amount] at the computed position.  The
returned flag is true for the update branch. -/
def update_or_insert_bag (rows : List (List String)) (col : ℕ) (processingDate : String)
    (bag : String × String) : List (List String) × Bool :=
  match find_row_by_value rows bag.1 col with
  | some r => (writeEG rows r ["X", processingDate, bag.2], true)
  | none =>
    let p := find_insert_position rows bag.1 col
    (insert_row rows p [bag.1, "", "", "", "X", processingDate, bag.2], false)

/-- The bag loop of SheetService.update_bags_in_sheet, threading the sheet
state through the bags from left to right. -/
def update_bags_loop (col : ℕ) (processingDate : String) :
    List (List String) → List (String × String) → List (List String)
  | rows, [] => rows
  | rows, b :: bs =>
    update_bags_loop col processingDate (update_or_insert_bag rows col processingDate b).1 bs

/-- SheetService.update_bags_in_sheet acting on the sheet state: resolve
the column mapping from the header row, validate the required columns,
turn the Zaknummer letter back into an index with ord, then run the bag
loop; every failure before the loop (empty sheet, empty header row,
missing required columns, ord TypeError on a multi-letter column) is
caught and reported with the sheet left unmutated. -/
def update_bags_in_sheet (rows : List (List String)) (processingDate : String)
    (bags : List (String × String)) : List (List String) :=
  match rows with
  | [] => rows
  | header :: _ =>
    if header = [] then rows
    else
      let columns := get_column_names header
      if (["Zaknummer", "Verwerkt", "Verwerkingsdatum", "Bedrag"].all
          (fun c => (dictFind columns c).isSome)) then
        match (dictFind columns "Zaknummer").bind colIndexOfLetter with
        | some zc => update_bags_loop zc processingDate rows bags
        | none => rows
      else rows

/-- The error-collecting bag loop of SheetService.update_bags_in_sheet
(lines 55-68), abstracted over the per-bag operation: step models the
call to _update_or_insert_bag together with the spreadsheet transport it
talks to, so it may fail with an exception message; a failing bag is
recorded as the message "Bag id: error" and the loop continues with the
remaining bags from the state the failing call left behind.  The result
is (final state, updated count, inserted count, error list). -/
def run_bags {σ : Type u} (step : σ → String × String → Except String (σ × Bool)) :
    σ → List (String × String) → σ × ℕ × ℕ × List String
  | st, [] => (st, 0, 0, [])
  | st, b :: bs =>
    match step st b with
    | Except.ok (st1, upd) =>
      let r := run_bags step st1 bs
      (r.1, if upd then r.2.1 + 1 else r.2.1, if upd then r.2.2.1 else r.2.2.1 + 1, r.2.2.2)
    | Except.error e =>
      let r := run_bags step st bs
      (r.1, r.2.1, r.2.2.1, ("Bag " ++ b.1 ++ ": " ++ e) :: r.2.2.2)

/-- Result record of SheetService.update_bags_in_sheet. -/
structure BatchResult where
  success : Bool
  updated : ℕ
  inserted : ℕ
  errors : List String
  deriving Repr, DecidableEq

/-- Batch result assembly of update_bags_in_sheet (lines 70-83): the
aggregate success flag holds exactly when no per-bag error was
collected. -/
def update_bags_result {σ : Type u} (step : σ → String × String → Except String (σ × Bool))
    (st : σ) (bags : List (String × String)) : σ × BatchResult :=
  let r := run_bags step st bags
  (r.1, ⟨r.2.2.2.isEmpty, r.2.1, r.2.2.1, r.2.2.2⟩)

/-- Outcome of SheetService.register_bag. -/
inductive RegOutcome where
  | failed (msg : String)
  | alreadyExists (row : ℕ)
  | registered (row : ℕ)
  deriving Repr, DecidableEq

/-- SheetService.register_bag (services/sheet_service.py lines 177-236)
acting on the sheet state: resolve the Zaknummer and Afgiftedatum columns
(a KeyError or an ord TypeError is caught and reported without mutation),
report already-exists without mutating anything when the bag id is found
by the column search, and otherwise insert the registration row at the
position sorted by the issue-date column. -/
def register_bag (rows : List (List String)) (bagId source bagType date : String) :
    List (List String) × RegOutcome :=
  match rows with
  | [] => (rows, RegOutcome.failed "Error registering bag: header row missing")
  | header :: _ =>
    if header = [] then (rows, RegOutcome.failed "Error registering bag: header row missing")
    else
      let columns := get_column_names header
      match (dictFind columns "Zaknummer").bind colIndexOfLetter,
            (dictFind columns "Afgiftedatum").bind colIndexOfLetter with
      | some zc, some ac =>
        (match find_row_by_value rows bagId zc with
         | some r => (rows, RegOutcome.alreadyExists r)
         | none =>
           let p := find_insert_position rows date ac
           (insert_row rows p [bagId, source, bagType, date, "", "", ""],
            RegOutcome.registered p))
      | _, _ => (rows, RegOutcome.failed "Error registering bag: column resolution")

@[simp] theorem digitVal_0 : digitVal '0' = 0 := by decide

@[simp] theorem digitVal_1 : digitVal '1' = 1 := by decide

@[simp] theorem digitVal_2 : digitVal '2' = 2 := by decide

@[simp] theorem digitVal_3 : digitVal '3' = 3 := by decide

@[simp] theorem digitVal_4 : digitVal '4' = 4 := by decide

@[simp] theorem digitVal_5 : digitVal '5' = 5 := by decide

@[simp] theorem digitVal_6 : digitVal '6' = 6 := by decide

@[simp] theorem digitVal_7 : digitVal '7' = 7 := by decide

@[simp] theorem digitVal_8 : digitVal '8' = 8 := by decide

@[simp] theorem digitVal_9 : digitVal '9' = 9 := by decide

theorem bagAmount_nil (k : String) : bagAmount [] k = 0 := rfl

theorem bagAmount_cons (k0 : String) (a : ℚ) (rest : List (String × ℚ)) (k : String) :
    bagAmount ((k0, a) :: rest) k = if k0 = k then a else bagAmount rest k := by
  unfold bagAmount
  rw [List.find?_cons]
  by_cases h : k0 = k
  · have hb : (((k0, a) : String × ℚ).1 == k) = true := by simpa using h
    rw [hb, if_pos h]
  · have hb : (((k0, a) : String × ℚ).1 == k) = false := by simpa using h
    rw [hb, if_neg h]

theorem sum_addToBags (bags : List (String × ℚ)) (k : String) (q : ℚ) :
    ((addToBags bags k q).map Prod.snd).sum = (bags.map Prod.snd).sum + q := by
  induction bags with
  | nil => simp [addToBags]
  | cons e rest ih =>
    obtain ⟨k0, a⟩ := e
    by_cases h : k0 = k
    · simp only [addToBags, if_pos h, List.map_cons, List.sum_cons]
      ring
    · simp only [addToBags, if_neg h, List.map_cons, List.sum_cons, ih]
      ring

theorem processLine_sum {st st1 : ChrState} {line : String}
    (h : processLine st line = Except.ok st1)
    (inv : (st.bags.map Prod.snd).sum = st.totalMoney) :
    (st1.bags.map Prod.snd).sum = st1.totalMoney := by
  unfold processLine at h
  by_cases hb : pyStrip line = ""
  · rw [if_pos hb] at h
    cases h
    exact inv
  · rw [if_neg hb] at h
    by_cases hc : 10 < (pySplit ';' line).length ∧
        pyDropFirst ((pySplit ';' line).getD 8 "") ≠ "50"
    · rw [if_pos hc] at h
      cases hf : pyFloat (pyReplace ((pySplit ';' line).getD 10 "") ',' '.') with
      | none => rw [hf] at h; cases h
      | some q =>
        rw [hf] at h
        cases h
        simpa [sum_addToBags] using inv
    · rw [if_neg hc] at h
      cases h
      exact inv

theorem foldlM_processLine_sum :
    ∀ (lines : List String) (st st1 : ChrState),
      lines.foldlM processLine st = Except.ok st1 →
      (st.bags.map Prod.snd).sum = st.totalMoney →
      (st1.bags.map Prod.snd).sum = st1.totalMoney := by
  intro lines
  induction lines with
  | nil =>
    intro st st1 h inv
    rw [List.foldlM_nil] at h
    cases h
    exact inv
  | cons l ls ih =>
    intro st st1 h inv
    rw [List.foldlM_cons] at h
    cases hl : processLine st l with
    | error e =>
      rw [hl] at h
      exact absurd h (by simp [Bind.bind, Except.bind])
    | ok st2 =>
      rw [hl] at h
      exact ih st2 st1 (by simpa [Bind.bind, Except.bind] using h) (processLine_sum hl inv)

/-- Claim C1: a transaction line whose status field (semicolon field 8) minus
its first character equals "50" leaves the per-bag totals and the grand
total unchanged; every accepted line (more than 10 fields, status not 50,
parsable amount) has its field-10 amount added to its own bag and to the
grand total, and such an addition changes exactly the one bag named by
field 5. -/
theorem chr_status50_excluded_amount_added_once :
    (∀ (st : ChrState) (line : String),
      8 < (pySplit ';' line).length →
      pyDropFirst ((pySplit ';' line).getD 8 "") = "50" →
      ∃ st1, processLine st line = Except.ok st1 ∧
        st1.bags = st.bags ∧ st1.totalMoney = st.totalMoney) ∧
    (∀ (st : ChrState) (line : String) (q : ℚ),
      pyStrip line ≠ "" →
      10 < (pySplit ';' line).length →
      pyDropFirst ((pySplit ';' line).getD 8 "") ≠ "50" →
      pyFloat (pyReplace ((pySplit ';' line).getD 10 "") ',' '.') = some q →
      processLine st line = Except.ok
        ⟨st.processedLines + 1, addToBags st.bags ((pySplit ';' line).getD 5 "") q,
         st.totalMoney + q⟩) ∧
    (∀ (bags : List (String × ℚ)) (k : String) (q : ℚ),
      bagAmount (addToBags bags k q) k = bagAmount bags k + q ∧
      ∀ k2, k2 ≠ k → bagAmount (addToBags bags k q) k2 = bagAmount bags k2) := by
  refine ⟨?_, ?_, ?_⟩
  · intro st line _ h50
    unfold processLine
    by_cases hb : pyStrip line = ""
    · exact ⟨st, by rw [if_pos hb], rfl, rfl⟩
    · rw [if_neg hb]
      have hc : ¬(10 < (pySplit ';' line).length ∧
          pyDropFirst ((pySplit ';' line).getD 8 "") ≠ "50") := by
        intro hcon
        exact hcon.2 h50
      rw [if_neg hc]
      exact ⟨_, rfl, rfl, rfl⟩
  · intro st line q hb hlen h50 hq
    unfold processLine
    rw [if_neg hb, if_pos ⟨hlen, h50⟩, hq]
  · intro bags k q
    induction bags with
    | nil =>
      refine ⟨by simp [addToBags, bagAmount_cons, bagAmount_nil], ?_⟩
      intro k2 hk2
      simp [addToBags, bagAmount_cons, bagAmount_nil, Ne.symm hk2]
    | cons e rest ih =>
      obtain ⟨k0, a⟩ := e
      by_cases h : k0 = k
      · subst h
        refine ⟨by simp [addToBags, bagAmount_cons], ?_⟩
        intro k2 hk2
        simp [addToBags, bagAmount_cons, Ne.symm hk2]
      · refine ⟨?_, ?_⟩
        · simp only [addToBags, if_neg h, bagAmount_cons, ih.1]
        · intro k2 hk2
          by_cases h2 : k0 = k2
          · subst h2
            simp [addToBags, if_neg h, bagAmount_cons]
          · simp only [addToBags, if_neg h, bagAmount_cons, if_neg h2, ih.2 k2 hk2]

/-- Closed witness for C1 at concrete inputs: a status-150 line (status
minus its first character is "50") changes neither bags nor total, an
accepted status-00 line with amount 9 adds 9 to bag B1 and to the total,
and the addition leaves the unrelated bag A2 untouched. -/
theorem chr_status50_excluded_amount_added_once_witness :
    (∃ st1, processLine ⟨0, [], 0⟩ ";;;;;B1;;;150;;9" = Except.ok st1 ∧
      st1.bags = [] ∧ st1.totalMoney = 0) ∧
    processLine ⟨0, [("A2", 1)], 1⟩ ";;;;;B1;;;00;;9" = Except.ok
      ⟨1, addToBags [("A2", 1)] "B1" 9, 1 + 9⟩ ∧
    bagAmount (addToBags [("A2", 1)] "B1" 9) "B1" = bagAmount [("A2", 1)] "B1" + 9 ∧
    bagAmount (addToBags [("A2", 1)] "B1" 9) "A2" = bagAmount [("A2", 1)] "A2" := by
  refine ⟨?_, ?_, ?_, ?_⟩
  · exact chr_status50_excluded_amount_added_once.1 ⟨0, [], 0⟩ ";;;;;B1;;;150;;9"
      (by decide) (by decide)
  · exact chr_status50_excluded_amount_added_once.2.1 ⟨0, [("A2", 1)], 1⟩ ";;;;;B1;;;00;;9" 9
      (by decide) (by decide) (by decide)
      (by norm_num +decide [pyFloat, pyStrip, pyIsSpace, pyReplace, parseUnsignedFloat,
        parseDigits, digitsVal, List.dropWhile, List.takeWhile, pySplit, splitChars])
  · exact (chr_status50_excluded_amount_added_once.2.2 [("A2", 1)] "B1" 9).1
  · exact (chr_status50_excluded_amount_added_once.2.2 [("A2", 1)] "B1" 9).2 "A2" (by decide)

/-- Claim C2: whenever CHR processing succeeds, the grand total it returns
equals the exact sum of the per-bag amounts it returns. -/
theorem chr_grand_total_eq_bag_sum (content : String) (n : ℕ)
    (bags : List (String × ℚ)) (total : ℚ) (date : String)
    (h : process_chr_content content = Except.ok (n, bags, total, date)) :
    (bags.map Prod.snd).sum = total := by
  unfold process_chr_content at h
  cases hl : pySplit '\n' content with
  | nil => rw [hl] at h; cases h
  | cons l0 rest =>
    rw [hl] at h
    dsimp only at h
    by_cases h7 : 7 < (pySplit ';' l0).length
    · rw [dif_pos h7] at h
      cases hf : (l0 :: rest).foldlM processLine ⟨0, [], 0⟩ with
      | error e => rw [hf] at h; cases h
      | ok st =>
        rw [hf] at h
        cases h
        exact foldlM_processLine_sum (l0 :: rest) ⟨0, [], 0⟩ st hf (by simp)
    · rw [dif_neg h7] at h
      cases h

/-- Closed witness for C2 on a concrete two-transaction file: the bag sum
10 + 11/2 equals the returned grand total 31/2. -/
theorem chr_grand_total_eq_bag_sum_witness :
    (([("B1", (10 : ℚ)), ("B2", 11 / 2)].map Prod.snd).sum : ℚ) = 31 / 2 := by
  refine chr_grand_total_eq_bag_sum
    "H;;;;;;;2024-01-15\n;;;;;B1;;;00;;10,00\n;;;;;B2;;;00;;5,50\n"
    3 [("B1", 10), ("B2", 11 / 2)] (31 / 2) "2024-01-15" ?_
  norm_num +decide [process_chr_content, processLine, pySplit, splitChars, pyStrip,
    pyIsSpace, pyReplace, pyDropFirst, pyFloat, parseUnsignedFloat, parseDigits,
    digitsVal, fracVal, addToBags, List.dropWhile, List.takeWhile, List.foldlM,
    Bind.bind, Except.bind, Pure.pure, Except.pure]

/-- Claim C3: when the first line of the file has fewer than 8 semicolon
fields, CHR processing fails with an invalid-format error and produces no
result tuple. -/
theorem chr_short_first_line_invalid_format (content l0 : String) (rest : List String)
    (hsplit : pySplit '\n' content = l0 :: rest)
    (hlen : (pySplit ';' l0).length < 8) :
    ∃ msg, process_chr_content content = Except.error msg := by
  unfold process_chr_content
  rw [hsplit]
  dsimp only
  rw [dif_neg (by omega)]
  exact ⟨_, rfl⟩

/-- Closed witness for C3: a file whose only line has two fields fails
with an error. -/
theorem chr_short_first_line_invalid_format_witness :
    ∃ msg, process_chr_content "a;b" = Except.error msg :=
  chr_short_first_line_invalid_format "a;b" "a;b" [] (by decide) (by decide)

theorem firstIdx_eq_some_iff {α : Type u} (p : α → Bool) (d : α) :
    ∀ (l : List α) (i : ℕ),
      firstIdx p l = some i ↔
        i < l.length ∧ p (l.getD i d) = true ∧ ∀ j, j < i → p (l.getD j d) = false := by
  intro l
  induction l with
  | nil => intro i; simp [firstIdx]
  | cons x xs ih =>
    intro i
    by_cases hx : p x
    · rw [firstIdx, if_pos hx]
      constructor
      · intro h
        cases h
        exact ⟨by simp, by simpa using hx, fun j hj => by omega⟩
      · rintro ⟨-, -, hall⟩
        cases i with
        | zero => rfl
        | succ i1 =>
          have := hall 0 (by omega)
          simp [hx] at this
    · rw [firstIdx, if_neg hx]
      cases i with
      | zero =>
        simp only [Option.map_eq_some']
        constructor
        · rintro ⟨a, -, h0⟩
          omega
        · rintro ⟨-, hp, -⟩
          simp only [List.getD_cons_zero] at hp
          exact absurd hp hx
      | succ i1 =>
        simp only [Option.map_eq_some']
        constructor
        · rintro ⟨a, ha, hae⟩
          obtain rfl : i1 = a := by omega
          have hih := (ih i1).1 ha
          refine ⟨by simpa using hih.1, by simpa using hih.2.1, ?_⟩
          intro j hj
          cases j with
          | zero => simpa using hx
          | succ j1 => simpa using hih.2.2 j1 (by omega)
        · rintro ⟨h1, h2, h3⟩
          refine ⟨i1, (ih i1).2 ⟨by simpa using h1, by simpa using h2, ?_⟩, rfl⟩
          intro j hj
          simpa using h3 (j + 1) (by omega)

theorem firstIdx_eq_none_iff {α : Type u} (p : α → Bool) :
    ∀ l : List α, firstIdx p l = none ↔ ∀ x ∈ l, p x = false := by
  intro l
  induction l with
  | nil => simp [firstIdx]
  | cons x xs ih =>
    by_cases hx : p x
    · rw [firstIdx, if_pos hx]
      simp [hx]
    · rw [firstIdx, if_neg hx]
      simp only [Option.map_eq_none', ih, List.mem_cons]
      constructor
      · intro h y hy
        rcases hy with rfl | hy
        · simpa using hx
        · exact h y hy
      · intro h y hy
        exact h y (Or.inr hy)

/-- Claim C5 counterexample: the reconciler existence lookup does not skip the
header row: searching the key column for the value the header cell itself
holds reports a match at row 1, the header row, which the in-place update
would then overwrite. -/
theorem find_row_reports_header_row :
    find_row_by_value [["Zaknummer", "Verwerkt", "Verwerkingsdatum", "Bedrag"], ["7"]]
      "Zaknummer" 0 = some 1 := by decide

/-- Claim C5 (amended): the existence lookup scans the bag-id column top to
bottom over every row, the header row included, and returns the 1-based
number of the first row whose cell is an exact string match; the header
row itself is reported as row 1 whenever its cell equals the searched
value, so it is not protected from the in-place update. -/
theorem find_row_first_exact_match (rows : List (List String)) (v : String) (col : ℕ)
    (r : ℕ) :
    find_row_by_value rows v col = some r ↔
      1 ≤ r ∧ r - 1 < rows.length ∧ matchesCell v col (rows.getD (r - 1) []) = true ∧
        ∀ j, j < r - 1 → matchesCell v col (rows.getD j []) = false := by
  unfold find_row_by_value
  rw [Option.map_eq_some']
  constructor
  · rintro ⟨i, hi, rfl⟩
    have h := (firstIdx_eq_some_iff _ [] rows i).1 hi
    exact ⟨by omega, by simpa using h.1, by simpa using h.2.1, by simpa using h.2.2⟩
  · rintro ⟨h1, h2, h3, h4⟩
    exact ⟨r - 1, (firstIdx_eq_some_iff _ [] rows (r - 1)).2 ⟨h2, h3, h4⟩, by omega⟩

theorem charsLt_nil (l : List Char) : charsLt l [] = false := by
  cases l <;> rfl

theorem pyGtCmp_empty (t : String) : pyGtCmp "" t = false := by
  have h : pyInt "" = none := by decide
  unfold pyGtCmp
  rw [h]
  cases pyInt t <;> simp [pyStrLt, charsLt_nil]

/-- The condition of the claim: the key-column value of the row,
interpreted as an int when both it and the target parse as ints and as a
string otherwise, is strictly greater than the target. -/
def strictlyGreaterKey (target : String) (col : ℕ) (row : List String) : Prop :=
  col < row.length ∧ pyGtCmp (row.getD col "") target = true

theorem isGreaterRow_eq_true_iff (target : String) (col : ℕ) (row : List String) :
    isGreaterRow target col row = true ↔ strictlyGreaterKey target col row := by
  unfold isGreaterRow strictlyGreaterKey
  constructor
  · intro h
    simp only [Bool.and_eq_true, decide_eq_true_eq] at h
    exact ⟨h.1.1, h.2⟩
  · rintro ⟨h1, h2⟩
    have hne : row.getD col "" ≠ "" := by
      intro he
      rw [he, pyGtCmp_empty] at h2
      cases h2
    simp only [Bool.and_eq_true, decide_eq_true_eq, Bool.not_eq_true', beq_eq_false_iff_ne]
    exact ⟨⟨h1, hne⟩, h2⟩

/-- Claim C6: the computed insertion position is the 1-based sheet row of the
first data row, header skipped, whose key-column value compares strictly
greater than the target id (integer comparison when both parse as ints,
string comparison otherwise; the data row with 0-based index i is sheet
row i + 2), and the number of rows plus one when no data row compares
greater. -/
theorem insert_position_first_greater_or_end (data : List (List String))
    (target : String) (col : ℕ) :
    (∃ i, find_insert_position data target col = i + 2 ∧ i < (data.drop 1).length ∧
      strictlyGreaterKey target col ((data.drop 1).getD i []) ∧
      ∀ j, j < i → ¬ strictlyGreaterKey target col ((data.drop 1).getD j [])) ∨
    (find_insert_position data target col = data.length + 1 ∧
      ∀ row ∈ data.drop 1, ¬ strictlyGreaterKey target col row) := by
  unfold find_insert_position
  cases hf : firstIdx (isGreaterRow target col) (data.drop 1) with
  | some i =>
    left
    have h := (firstIdx_eq_some_iff _ [] _ i).1 hf
    refine ⟨i, rfl, h.1, (isGreaterRow_eq_true_iff _ _ _).1 h.2.1, ?_⟩
    intro j hj hcon
    have hjf := h.2.2 j hj
    rw [(isGreaterRow_eq_true_iff _ _ _).2 hcon] at hjf
    cases hjf
  | none =>
    right
    refine ⟨rfl, ?_⟩
    intro row hrow hcon
    have hx := (firstIdx_eq_none_iff _ _).1 hf row hrow
    rw [(isGreaterRow_eq_true_iff _ _ _).2 hcon] at hx
    cases hx

theorem index_to_column_letter_go_base (fuel i : ℕ) (h : i < 26) :
    index_to_column_letter_go fuel i = String.mk [Char.ofNat (i % 26 + 65)] := by
  cases fuel with
  | zero => rfl
  | succ f => simp [index_to_column_letter_go, h]

theorem index_to_column_letter_go_length_pos (fuel : ℕ) :
    ∀ i, 1 ≤ (index_to_column_letter_go fuel i).length := by
  induction fuel with
  | zero => intro i; rfl
  | succ f ih =>
    intro i
    by_cases h : i < 26
    · simp [index_to_column_letter_go, h]
    · rw [index_to_column_letter_go, if_neg h, String.length_append]
      have := ih (i / 26 - 1)
      omega

/-- Claim C10: the index-to-letter conversion and the ord-based inverse used by
update_sheet and register_bag round-trip exactly on indices 0 to 25, where
the produced letter is a single character; from index 26 on the produced
string has more than one character, so the ord-based inverse (a TypeError
in Python, none here) does not recover the index: the key-column index
resolution is correct only for columns A through Z. -/
theorem column_letter_ord_roundtrip :
    (∀ i, i ≤ 25 → (index_to_column_letter i).length = 1 ∧
      colIndexOfLetter (index_to_column_letter i) = some i) ∧
    (∀ i, 26 ≤ i → 1 < (index_to_column_letter i).length ∧
      colIndexOfLetter (index_to_column_letter i) ≠ some i) := by
  constructor
  · intro i hi
    interval_cases i <;> exact ⟨by decide, by decide⟩
  · intro i hi
    have hlen : 1 < (index_to_column_letter i).length := by
      obtain ⟨f, rfl⟩ : ∃ f, i = f + 1 := ⟨i - 1, by omega⟩
      unfold index_to_column_letter
      rw [index_to_column_letter_go, if_neg (by omega), String.length_append]
      have := index_to_column_letter_go_length_pos f ((f + 1) / 26 - 1)
      have h1 : (String.mk [Char.ofNat ((f + 1) % 26 + 65)]).length = 1 := rfl
      omega
    have hdata : (index_to_column_letter i).data.length =
        (index_to_column_letter i).length := rfl
    refine ⟨hlen, ?_⟩
    cases hd : (index_to_column_letter i).data with
    | nil => rw [hd] at hdata; simp at hdata; omega
    | cons c1 tl =>
      cases tl with
      | nil => rw [hd] at hdata; simp at hdata; omega
      | cons c2 tl2 =>
        unfold colIndexOfLetter pyOrd
        rw [hd]
        simp

theorem run_bags_append {σ : Type u} (step : σ → String × String → Except String (σ × Bool))
    (st : σ) (xs ys : List (String × String)) :
    run_bags step st (xs ++ ys) =
      ((run_bags step (run_bags step st xs).1 ys).1,
       (run_bags step st xs).2.1 + (run_bags step (run_bags step st xs).1 ys).2.1,
       (run_bags step st xs).2.2.1 + (run_bags step (run_bags step st xs).1 ys).2.2.1,
       (run_bags step st xs).2.2.2 ++ (run_bags step (run_bags step st xs).1 ys).2.2.2) := by
  induction xs generalizing st with
  | nil => simp [run_bags]
  | cons b bs ih =>
    rw [List.cons_append, run_bags, run_bags]
    cases hs : step st b with
    | ok s1 =>
      obtain ⟨st1, upd⟩ := s1
      simp only [ih st1]
      cases upd <;> simp <;> omega
    | error e =>
      simp only [ih st]
      simp

/-- Claim C4: a bag on which the per-bag operation fails is recorded as a
per-bag error message while the bags after it are still processed,
starting from the state the failure left behind; the batch error list is
the concatenation of the errors before the failing bag, its own message
and the errors after it, the counts add up likewise, and the aggregate
success flag of the batch result holds exactly when the error list is
empty, so one failed bag makes it false. -/
theorem batch_failure_isolated_and_success_iff {σ : Type u}
    (step : σ → String × String → Except String (σ × Bool)) (st : σ)
    (pre post : List (String × String)) (b : String × String) (msg : String)
    (hfail : step (run_bags step st pre).1 b = Except.error msg) :
    run_bags step st (pre ++ b :: post) =
      ((run_bags step (run_bags step st pre).1 post).1,
       (run_bags step st pre).2.1 + (run_bags step (run_bags step st pre).1 post).2.1,
       (run_bags step st pre).2.2.1 + (run_bags step (run_bags step st pre).1 post).2.2.1,
       (run_bags step st pre).2.2.2 ++
         ("Bag " ++ b.1 ++ ": " ++ msg) ::
           (run_bags step (run_bags step st pre).1 post).2.2.2) ∧
    ∀ (st0 : σ) (bags : List (String × String)),
      ((update_bags_result step st0 bags).2.success = true ↔
        (update_bags_result step st0 bags).2.errors = []) := by
  constructor
  · rw [run_bags_append]
    rw [show run_bags step (run_bags step st pre).1 (b :: post) =
        match step (run_bags step st pre).1 b with
        | Except.ok (st1, upd) =>
          let r := run_bags step st1 post
          (r.1, if upd then r.2.1 + 1 else r.2.1,
           if upd then r.2.2.1 else r.2.2.1 + 1, r.2.2.2)
        | Except.error e =>
          let r := run_bags step (run_bags step st pre).1 post
          (r.1, r.2.1, r.2.2.1, ("Bag " ++ b.1 ++ ": " ++ e) :: r.2.2.2)
      from rfl]
    rw [hfail]
  · intro st0 bags
    unfold update_bags_result
    simp [List.isEmpty_iff]

/-- Closed witness for C4 with a two-successes-around-one-failure batch
over a counter state: the failing middle bag B is recorded and the third
bag C is still processed, and the success flag agrees with error-list
emptiness on a concrete batch. -/
theorem batch_failure_isolated_and_success_iff_witness :
    (run_bags (fun st b => if b.1 == "B" then Except.error "boom"
        else Except.ok (st + 1, true)) (0 : ℕ) ([("A", "1")] ++ ("B", "2") :: [("C", "3")]) =
      ((run_bags (fun st b => if b.1 == "B" then Except.error "boom"
          else Except.ok (st + 1, true))
          (run_bags (fun st b => if b.1 == "B" then Except.error "boom"
            else Except.ok (st + 1, true)) (0 : ℕ) [("A", "1")]).1 [("C", "3")]).1,
       (run_bags (fun st b => if b.1 == "B" then Except.error "boom"
          else Except.ok (st + 1, true)) (0 : ℕ) [("A", "1")]).2.1 +
         (run_bags (fun st b => if b.1 == "B" then Except.error "boom"
            else Except.ok (st + 1, true))
            (run_bags (fun st b => if b.1 == "B" then Except.error "boom"
              else Except.ok (st + 1, true)) (0 : ℕ) [("A", "1")]).1 [("C", "3")]).2.1,
       (run_bags (fun st b => if b.1 == "B" then Except.error "boom"
          else Except.ok (st + 1, true)) (0 : ℕ) [("A", "1")]).2.2.1 +
         (run_bags (fun st b => if b.1 == "B" then Except.error "boom"
            else Except.ok (st + 1, true))
            (run_bags (fun st b => if b.1 == "B" then Except.error "boom"
              else Except.ok (st + 1, true)) (0 : ℕ) [("A", "1")]).1 [("C", "3")]).2.2.1,
       (run_bags (fun st b => if b.1 == "B" then Except.error "boom"
          else Except.ok (st + 1, true)) (0 : ℕ) [("A", "1")]).2.2.2 ++
         ("Bag " ++ "B" ++ ": " ++ "boom") ::
           (run_bags (fun st b => if b.1 == "B" then Except.error "boom"
              else Except.ok (st + 1, true))
              (run_bags (fun st b => if b.1 == "B" then Except.error "boom"
                else Except.ok (st + 1, true)) (0 : ℕ) [("A", "1")]).1 [("C", "3")]).2.2.2)) ∧
    ((update_bags_result (fun st b => if b.1 == "B" then Except.error "boom"
        else Except.ok (st + 1, true)) (0 : ℕ) [("A", "1")]).2.success = true ↔
      (update_bags_result (fun st b => if b.1 == "B" then Except.error "boom"
        else Except.ok (st + 1, true)) (0 : ℕ) [("A", "1")]).2.errors = []) := by
  have h := batch_failure_isolated_and_success_iff
    (fun st b => if b.1 == "B" then Except.error "boom" else Except.ok (st + 1, true))
    (0 : ℕ) [("A", "1")] [("C", "3")] ("B", "2") "boom" (by decide)
  exact ⟨h.1, h.2 0 [("A", "1")]⟩

/-- Closed witness for C10: the roundtrip at index 3 and the failure of
the ord-based inverse at index 30. -/
theorem column_letter_ord_roundtrip_witness :
    ((index_to_column_letter 3).length = 1 ∧
      colIndexOfLetter (index_to_column_letter 3) = some 3) ∧
    (1 < (index_to_column_letter 30).length ∧
      colIndexOfLetter (index_to_column_letter 30) ≠ some 30) :=
  ⟨column_letter_ord_roundtrip.1 3 (by decide), column_letter_ord_roundtrip.2 30 (by decide)⟩

/-- Claim C9: when the bag id is already present in the bag-id column (the key
columns being resolved from the header), registration returns the non
fatal already-exists outcome carrying the matched row and performs no
ledger mutation: the sheet state it returns is the input state, so no row
is inserted and no cell is written. -/
theorem register_existing_bag_no_mutation (header : List String)
    (rest : List (List String)) (bagId source bagType date : String) (zc ac r : ℕ)
    (hheader : header ≠ [])
    (hzak : (dictFind (get_column_names header) "Zaknummer").bind colIndexOfLetter = some zc)
    (hafg : (dictFind (get_column_names header) "Afgiftedatum").bind colIndexOfLetter = some ac)
    (hfound : find_row_by_value (header :: rest) bagId zc = some r) :
    register_bag (header :: rest) bagId source bagType date =
      (header :: rest, RegOutcome.alreadyExists r) := by
  unfold register_bag
  dsimp only
  rw [if_neg hheader]
  simp only [hzak, hafg, hfound]

/-- Closed witness for C9: registering the already present bag 7 leaves
the two-row sheet unchanged and reports row 2. -/
theorem register_existing_bag_no_mutation_witness :
    register_bag [["Zaknummer", "Bron", "Type", "Afgiftedatum"],
        ["7", "p", "Mini", "2024-01-01"]] "7" "Polaris" "Mini" "2024-02-02" =
      ([["Zaknummer", "Bron", "Type", "Afgiftedatum"], ["7", "p", "Mini", "2024-01-01"]],
       RegOutcome.alreadyExists 2) :=
  register_existing_bag_no_mutation ["Zaknummer", "Bron", "Type", "Afgiftedatum"]
    [["7", "p", "Mini", "2024-01-01"]] "7" "Polaris" "Mini" "2024-02-02" 0 3 2
    (by decide) (by decide) (by decide) (by decide)

/-- The key of a row in the given column read as a Python int; none when
the cell is missing, empty or not a numeral. -/
def keyInt (col : ℕ) (row : List String) : Option ℤ :=
  pyInt (row.getD col "")

theorem pyInt_empty : pyInt "" = none := by decide

theorem keyInt_some_facts {col : ℕ} {row : List String} {k : ℤ}
    (h : keyInt col row = some k) : col < row.length ∧ row.getD col "" ≠ "" := by
  constructor
  · by_contra hcon
    rw [keyInt, List.getD_eq_default row "" (by omega), pyInt_empty] at h
    cases h
  · intro he
    rw [keyInt, he, pyInt_empty] at h
    cases h

theorem isGreaterRow_numeric {idStr : String} {n : ℤ} {col : ℕ} {row : List String} {k : ℤ}
    (hid : pyInt idStr = some n) (hk : keyInt col row = some k) :
    isGreaterRow idStr col row = decide (n < k) := by
  obtain ⟨hlt, hne⟩ := keyInt_some_facts hk
  rw [keyInt] at hk
  unfold isGreaterRow pyGtCmp
  rw [hk, hid]
  have h1 : decide (col < row.length) = true := by simpa using hlt
  have h2 : (row.getD col "" == "") = false := by simpa using hne
  rw [h1, h2]
  simp

theorem firstIdx_greater_eq {col : ℕ} {idStr : String} {n : ℤ}
    (hid : pyInt idStr = some n) :
    ∀ (rest : List (List String)) (ks : List ℤ),
      rest.map (keyInt col) = ks.map some →
      firstIdx (isGreaterRow idStr col) rest = firstIdx (fun k => decide (n < k)) ks := by
  intro rest
  induction rest with
  | nil =>
    intro ks hmap
    cases ks with
    | nil => rfl
    | cons a b => simp at hmap
  | cons r rs ih =>
    intro ks hmap
    cases ks with
    | nil => simp at hmap
    | cons k ks1 =>
      simp only [List.map_cons, List.cons.injEq] at hmap
      obtain ⟨hk, hmap1⟩ := hmap
      rw [firstIdx, firstIdx]
      rw [isGreaterRow_numeric hid hk, ih ks1 hmap1]

theorem mem_take_getD {α : Type u} (d : α) :
    ∀ (l : List α) (i : ℕ) (x : α), x ∈ l.take i →
      ∃ j, j < i ∧ j < l.length ∧ l.getD j d = x := by
  intro l
  induction l with
  | nil =>
    intro i x hx
    simp at hx
  | cons y ys ih =>
    intro i x hx
    cases i with
    | zero => simp at hx
    | succ i1 =>
      rw [List.take_succ_cons] at hx
      rcases List.mem_cons.1 hx with rfl | hx2
      · exact ⟨0, by omega, by simp, rfl⟩
      · obtain ⟨j, hji, hjlen, hxval⟩ := ih i1 x hx2
        exact ⟨j + 1, by omega, by simpa using hjlen, hxval⟩

/-- Claim C7: starting from a ledger whose data-row keys in the bag-id column
are all numerals in strictly ascending order, inserting a row carrying a
new numeric key at the position the reconciler computes keeps the bag-id
column, header excluded, in strictly ascending numeric order. -/
theorem insert_at_computed_position_preserves_order
    (header : List String) (rest : List (List String)) (col : ℕ) (idStr : String)
    (n : ℤ) (newRow : List String) (ks : List ℤ)
    (hmap : rest.map (keyInt col) = ks.map some)
    (hsorted : List.Chain' (fun a b => a < b) ks)
    (hid : pyInt idStr = some n)
    (hnew : n ∉ ks)
    (hrow : keyInt col newRow = some n) :
    ∃ ks1, ((insert_row (header :: rest)
        (find_insert_position (header :: rest) idStr col) newRow).drop 1).map (keyInt col) =
      ks1.map some ∧ List.Chain' (fun a b => a < b) ks1 := by
  have hlen : ks.length = rest.length := by
    have h := congrArg List.length hmap
    simpa using h.symm
  have hfi := firstIdx_greater_eq hid rest ks hmap
  unfold find_insert_position
  rw [show (header :: rest).drop 1 = rest from rfl, hfi]
  cases hf : firstIdx (fun k => decide (n < k)) ks with
  | some i =>
    obtain ⟨hi, hpi, hprev⟩ := (firstIdx_eq_some_iff (fun k => decide (n < k)) 0 ks i).1 hf
    rw [List.getD_eq_getElem ks 0 hi, decide_eq_true_eq] at hpi
    have hstruct : insert_row (header :: rest) (i + 2) newRow =
        header :: (rest.take i ++ newRow :: rest.drop i) := by
      unfold insert_row
      rw [show i + 2 - 1 = i + 1 from rfl, List.take_succ_cons, List.drop_succ_cons,
        List.cons_append]
    refine ⟨ks.take i ++ n :: ks.drop i, ?_, ?_⟩
    · rw [hstruct,
        show (header :: (rest.take i ++ newRow :: rest.drop i)).drop 1 =
          rest.take i ++ newRow :: rest.drop i from rfl,
        List.map_append, List.map_cons, hrow, List.map_take, List.map_drop, hmap,
        ← List.map_take, ← List.map_drop, List.map_append, List.map_cons]
    · rw [List.chain'_append]
      refine ⟨hsorted.sublist (List.take_sublist i ks), ?_, ?_⟩
      · rw [List.chain'_cons']
        refine ⟨?_, hsorted.sublist (List.drop_sublist i ks)⟩
        intro y hy
        rw [List.drop_eq_getElem_cons hi, List.head?_cons] at hy
        simp only [Option.mem_some_iff] at hy
        subst hy
        exact hpi
      · intro x hx y hy
        simp only [List.head?_cons, Option.mem_some_iff] at hy
        subst hy
        have hx2 := List.mem_of_mem_getLast? hx
        obtain ⟨j, hji, hjlen, hxval⟩ := mem_take_getD 0 ks i x hx2
        have hfalse := hprev j hji
        rw [decide_eq_false_iff_not, hxval] at hfalse
        have hxks : x ∈ ks := (List.take_sublist i ks).subset hx2
        have hne2 : x ≠ n := fun he => hnew (he ▸ hxks)
        omega
  | none =>
    have hnone := (firstIdx_eq_none_iff (fun k => decide (n < k)) ks).1 hf
    rw [show (header :: rest).length + 1 = rest.length + 1 + 1 by simp]
    have hstruct : insert_row (header :: rest) (rest.length + 1 + 1) newRow =
        header :: (rest ++ [newRow]) := by
      unfold insert_row
      rw [show rest.length + 1 + 1 - 1 = rest.length + 1 from rfl, List.take_succ_cons,
        List.drop_succ_cons, List.take_length, List.drop_length, List.cons_append]
    refine ⟨ks ++ [n], ?_, ?_⟩
    · rw [hstruct,
        show (header :: (rest ++ [newRow])).drop 1 = rest ++ [newRow] from rfl,
        List.map_append, List.map_cons, List.map_nil, hrow, hmap,
        List.map_append, List.map_cons, List.map_nil]
    · rw [List.chain'_append]
      refine ⟨hsorted, List.chain'_singleton n, ?_⟩
      intro x hx y hy
      simp only [List.head?_cons, Option.mem_some_iff] at hy
      subst hy
      have hxk := List.mem_of_mem_getLast? hx
      have hfalse := hnone x hxk
      rw [decide_eq_false_iff_not] at hfalse
      have hne2 : x ≠ n := by
        intro he
        exact hnew (he ▸ hxk)
      omega

/-- Closed witness for C7: inserting key 2 into a ledger with ascending
keys 1 and 3 keeps the key column ascending. -/
theorem insert_at_computed_position_preserves_order_witness :
    ∃ ks1, ((insert_row (["Zaknummer"] :: [["1"], ["3"]])
        (find_insert_position (["Zaknummer"] :: [["1"], ["3"]]) "2" 0)
        ["2", "", "", "", "X", "d", "9"]).drop 1).map (keyInt 0) =
      ks1.map some ∧ List.Chain' (fun a b => a < b) ks1 :=
  insert_at_computed_position_preserves_order ["Zaknummer"] [["1"], ["3"]] 0 "2" 2
    ["2", "", "", "", "X", "d", "9"] [1, 3]
    (by decide) (by norm_num [List.chain'_cons]) (by decide) (by decide) (by decide)

theorem getD_set_self {α : Type u} (d x : α) :
    ∀ (l : List α) (i : ℕ), i < l.length → (l.set i x).getD i d = x := by
  intro l
  induction l with
  | nil => intro i hi; simp at hi
  | cons y ys ih =>
    intro i hi
    cases i with
    | zero => rfl
    | succ i1 => exact ih i1 (by simpa using hi)

theorem getD_set_ne {α : Type u} (d x : α) :
    ∀ (l : List α) (i j : ℕ), i ≠ j → (l.set i x).getD j d = l.getD j d := by
  intro l
  induction l with
  | nil => intro i j _; simp
  | cons y ys ih =>
    intro i j hij
    cases i with
    | zero =>
      cases j with
      | zero => exact absurd rfl hij
      | succ j1 => rfl
    | succ i1 =>
      cases j with
      | zero => rfl
      | succ j1 => exact ih i1 j1 (by omega)

theorem set_getD_identity {α : Type u} (d : α) :
    ∀ (l : List α) (i : ℕ), i < l.length → l.set i (l.getD i d) = l := by
  intro l
  induction l with
  | nil => intro i hi; simp at hi
  | cons y ys ih =>
    intro i hi
    cases i with
    | zero => rfl
    | succ i1 => simpa using ih i1 (by simpa using hi)

theorem firstIdx_set {α : Type u} (p : α → Bool) (d : α) :
    ∀ (l : List α) (i : ℕ) (x : α), p x = p (l.getD i d) →
      firstIdx p (l.set i x) = firstIdx p l := by
  intro l
  induction l with
  | nil => intro i x _; rfl
  | cons y ys ih =>
    intro i x hpx
    cases i with
    | zero =>
      simp only [List.getD_cons_zero] at hpx
      rw [List.set_cons_zero, firstIdx, firstIdx, hpx]
    | succ i1 =>
      simp only [List.getD_cons_succ] at hpx
      rw [List.set_cons_succ, firstIdx, firstIdx, ih i1 x hpx]

theorem firstIdx_insert_of_neg {α : Type u} (p : α → Bool) :
    ∀ (l : List α) (j : ℕ) (x : α), p x = false → j ≤ l.length →
      firstIdx p (l.take j ++ x :: l.drop j) =
        (firstIdx p l).map (fun i => if i < j then i else i + 1) := by
  intro l
  induction l with
  | nil =>
    intro j x hx hj
    simp only [List.length_nil, Nat.le_zero] at hj
    subst hj
    simp [firstIdx, hx]
  | cons y ys ih =>
    intro j x hx hj
    cases j with
    | zero =>
      simp only [List.take_zero, List.drop_zero, List.nil_append]
      rw [firstIdx, hx]
      simp only [Bool.false_eq_true, if_false]
      cases hy : firstIdx p (y :: ys) <;> simp
    | succ j1 =>
      rw [List.take_succ_cons, List.drop_succ_cons, List.cons_append, firstIdx, firstIdx]
      by_cases hy : p y = true
      · rw [hy]
        simp
      · rw [Bool.not_eq_true] at hy
        rw [hy]
        simp only [Bool.false_eq_true, if_false]
        rw [ih j1 x hx (by simpa using hj)]
        cases hz : firstIdx p ys with
        | none => rfl
        | some i =>
          simp only [Option.map_some', Option.map_map]
          have : ((fun i => i + 1) ∘ fun i => if i < j1 then i else i + 1) i =
              ((fun i => if i < j1 + 1 then i else i + 1) ∘ fun i => i + 1) i := by
            by_cases hcmp : i < j1 <;> simp [hcmp] <;> omega
          simp only [Function.comp] at this ⊢
          rw [this]

theorem firstIdx_insert_all_neg {α : Type u} (p : α → Bool) :
    ∀ (l : List α) (j : ℕ) (x : α), p x = true → (∀ y ∈ l, p y = false) → j ≤ l.length →
      firstIdx p (l.take j ++ x :: l.drop j) = some j := by
  intro l
  induction l with
  | nil =>
    intro j x hx _ hj
    simp only [List.length_nil, Nat.le_zero] at hj
    subst hj
    simp [firstIdx, hx]
  | cons y ys ih =>
    intro j x hx hall hj
    cases j with
    | zero =>
      simp only [List.take_zero, List.drop_zero, List.nil_append]
      rw [firstIdx, hx]
      simp
    | succ j1 =>
      rw [List.take_succ_cons, List.drop_succ_cons, List.cons_append, firstIdx]
      rw [hall y (by simp)]
      simp only [Bool.false_eq_true, if_false]
      rw [ih j1 x hx (fun z hz => hall z (by simp [hz])) (by simpa using hj)]
      rfl

theorem getD_insert_at {α : Type u} (d : α) :
    ∀ (l : List α) (j : ℕ) (x : α), j ≤ l.length →
      (l.take j ++ x :: l.drop j).getD j d = x := by
  intro l j x hj
  rw [List.getD_append_right]
  · rw [List.length_take, Nat.min_eq_left hj, Nat.sub_self]
    rfl
  · rw [List.length_take]
    omega

theorem getD_insert_shift {α : Type u} (d : α) :
    ∀ (l : List α) (j i : ℕ) (x : α), j ≤ l.length → i < l.length →
      (l.take j ++ x :: l.drop j).getD (if i < j then i else i + 1) d = l.getD i d := by
  intro l j i x hj hi
  by_cases hcmp : i < j
  · rw [if_pos hcmp, List.getD_append]
    · rw [List.getD_eq_getElem l d hi, List.getD_eq_getElem _ d (by rw [List.length_take]; omega)]
      simp [List.getElem_take]
    · rw [List.length_take]
      omega
  · rw [if_neg hcmp, List.getD_append_right]
    · rw [List.length_take, Nat.min_eq_left hj]
      have h1 : i + 1 - j = (i - j) + 1 := by omega
      rw [h1, List.getD_cons_succ]
      rw [List.getD_eq_getElem l d hi, List.getD_eq_getElem _ d (by rw [List.length_drop]; omega)]
      rw [List.getElem_drop]
      congr 1
      omega
    · rw [List.length_take]
      omega

theorem insert_length {α : Type u} (l : List α) (j : ℕ) (x : α) (hj : j ≤ l.length) :
    (l.take j ++ x :: l.drop j).length = l.length + 1 := by
  simp only [List.length_append, List.length_take, List.length_cons, List.length_drop]
  omega

theorem setCellsFrom_length (row vals : List String) (start : ℕ) :
    (setCellsFrom row start vals).length = max row.length (start + vals.length) := by
  unfold setCellsFrom
  simp only [List.length_append, List.length_take, List.length_drop, List.length_replicate]
  omega

theorem setCellsFrom_cons (r0 : String) (rt vals : List String) (s : ℕ) :
    setCellsFrom (r0 :: rt) (s + 1) vals = r0 :: setCellsFrom rt s vals := by
  unfold setCellsFrom
  simp only [List.length_cons]
  rw [show s + 1 + vals.length - (rt.length + 1) = s + vals.length - rt.length by omega,
    show s + 1 + vals.length = (s + vals.length) + 1 by omega,
    List.cons_append, List.take_succ_cons, List.drop_succ_cons, List.cons_append]
  simp [List.append_assoc]

theorem matchesCell_setCellsFrom (v : String) (row vals : List String) (hne : row ≠ []) :
    matchesCell v 0 (setCellsFrom row 4 vals) = matchesCell v 0 row := by
  obtain ⟨r0, rt, rfl⟩ := List.exists_cons_of_ne_nil hne
  rw [show (4 : ℕ) = 3 + 1 from rfl, setCellsFrom_cons]
  unfold matchesCell
  simp

theorem setCellsFrom_idem (row vals : List String) (start : ℕ) :
    setCellsFrom (setCellsFrom row start vals) start vals = setCellsFrom row start vals := by
  unfold setCellsFrom
  set P := row ++ List.replicate (start + vals.length - row.length) "" with hP
  have hPlen : start + vals.length ≤ P.length := by
    rw [hP, List.length_append, List.length_replicate]
    omega
  have hAlen : (P.take start).length = start := by
    rw [List.length_take]
    omega
  have hABlen : (P.take start ++ vals).length = start + vals.length := by
    rw [List.length_append, hAlen]
  have hR1len : (P.take start ++ vals ++ P.drop (start + vals.length)).length = P.length := by
    simp only [List.length_append, hAlen, List.length_drop]
    omega
  have hzero : start + vals.length -
      (P.take start ++ vals ++ P.drop (start + vals.length)).length = 0 := by
    omega
  rw [hzero, List.replicate_zero, List.append_nil]
  have ht : (P.take start ++ vals ++ P.drop (start + vals.length)).take start = P.take start := by
    rw [List.append_assoc, List.take_left' hAlen]
  have hd : (P.take start ++ vals ++ P.drop (start + vals.length)).drop (start + vals.length) =
      P.drop (start + vals.length) := List.drop_left' hABlen
  rw [ht, hd]

theorem find_insert_position_eq (data : List (List String)) (t : String) (c : ℕ) :
    (∃ i, firstIdx (isGreaterRow t c) (data.drop 1) = some i ∧
      find_insert_position data t c = i + 2) ∨
    (firstIdx (isGreaterRow t c) (data.drop 1) = none ∧
      find_insert_position data t c = data.length + 1) := by
  unfold find_insert_position
  cases hf : firstIdx (isGreaterRow t c) (data.drop 1) with
  | some i => exact Or.inl ⟨i, rfl, rfl⟩
  | none => exact Or.inr ⟨rfl, rfl⟩

theorem find_insert_position_bounds (data : List (List String)) (t : String) (c : ℕ)
    (hne : data ≠ []) :
    2 ≤ find_insert_position data t c ∧ find_insert_position data t c ≤ data.length + 1 := by
  have hpos : 0 < data.length := List.length_pos.2 hne
  rcases find_insert_position_eq data t c with ⟨i, hf, he⟩ | ⟨hf, he⟩
  · have h := (firstIdx_eq_some_iff (isGreaterRow t c) [] (data.drop 1) i).1 hf
    have h2 : i < data.length - 1 := by
      have h3 := h.1
      rwa [List.length_drop] at h3
    rw [he]
    exact ⟨by omega, by omega⟩
  · rw [he]
    exact ⟨by omega, by omega⟩

/-- After a run of the reconciler, a bag is in a good position when the
first row matching its id in column A already carries the payload the
update would write, so a further update is the identity. -/
def GoodBag (date : String) (rows : List (List String)) (b : String × String) : Prop :=
  ∃ i, firstIdx (matchesCell b.1 0) rows = some i ∧
    setCellsFrom (rows.getD i []) 4 ["X", date, b.2] = rows.getD i [] ∧ i < rows.length

theorem matchesCell_true_facts {v : String} {row : List String}
    (h : matchesCell v 0 row = true) : row ≠ [] ∧ row.getD 0 "" = v := by
  unfold matchesCell at h
  simp only [Bool.and_eq_true, decide_eq_true_eq, beq_iff_eq] at h
  exact ⟨List.ne_nil_of_length_pos h.1, h.2⟩

theorem update_good_identity (date : String) (rows : List (List String)) (b : String × String)
    (hg : GoodBag date rows b) :
    update_or_insert_bag rows 0 date b = (rows, true) := by
  obtain ⟨i, hfi, hpay, hilen⟩ := hg
  unfold update_or_insert_bag find_row_by_value
  rw [hfi]
  simp only [Option.map_some']
  unfold writeEG
  rw [show i + 1 - 1 = i from rfl, hpay, set_getD_identity [] rows i hilen]

theorem update_good_self (date : String) (rows : List (List String)) (b : String × String)
    (hrows : rows ≠ []) :
    GoodBag date (update_or_insert_bag rows 0 date b).1 b := by
  unfold update_or_insert_bag find_row_by_value
  cases hfi : firstIdx (matchesCell b.1 0) rows with
  | some i =>
    obtain ⟨hilen, hmatch, -⟩ := (firstIdx_eq_some_iff (matchesCell b.1 0) [] rows i).1 hfi
    simp only [Option.map_some']
    unfold writeEG
    rw [show i + 1 - 1 = i from rfl]
    have hrowne : rows.getD i [] ≠ [] := (matchesCell_true_facts hmatch).1
    have hm2 : matchesCell b.1 0 (setCellsFrom (rows.getD i []) 4 ["X", date, b.2]) =
        matchesCell b.1 0 (rows.getD i []) :=
      matchesCell_setCellsFrom b.1 (rows.getD i []) ["X", date, b.2] hrowne
    refine ⟨i, ?_, ?_, ?_⟩
    · rw [firstIdx_set (matchesCell b.1 0) [] rows i _ hm2]
      exact hfi
    · rw [getD_set_self [] _ rows i hilen]
      exact setCellsFrom_idem (rows.getD i []) ["X", date, b.2] 4
    · rw [List.length_set]
      exact hilen
  | none =>
    have hall := (firstIdx_eq_none_iff (matchesCell b.1 0) rows).1 hfi
    simp only [Option.map_none']
    obtain ⟨hp2, hpLen⟩ := find_insert_position_bounds rows b.1 0 hrows
    unfold insert_row
    have hjle : find_insert_position rows b.1 0 - 1 ≤ rows.length := by omega
    have hmx : matchesCell b.1 0 [b.1, "", "", "", "X", date, b.2] = true := by
      unfold matchesCell
      simp
    refine ⟨find_insert_position rows b.1 0 - 1, ?_, ?_, ?_⟩
    · exact firstIdx_insert_all_neg (matchesCell b.1 0) rows _ _ hmx hall hjle
    · rw [getD_insert_at [] rows _ _ hjle]
      rfl
    · rw [insert_length rows _ _ hjle]
      omega

theorem update_good_other (date : String) (rows : List (List String)) (b b2 : String × String)
    (hne : b2.1 ≠ b.1) (hrows : rows ≠ []) (hg : GoodBag date rows b) :
    GoodBag date (update_or_insert_bag rows 0 date b2).1 b := by
  obtain ⟨i, hfi, hpay, hilen⟩ := hg
  have hmatchi : matchesCell b.1 0 (rows.getD i []) = true :=
    ((firstIdx_eq_some_iff (matchesCell b.1 0) [] rows i).1 hfi).2.1
  unfold update_or_insert_bag find_row_by_value
  cases hfi2 : firstIdx (matchesCell b2.1 0) rows with
  | some i2 =>
    obtain ⟨hi2len, hmatch2, -⟩ := (firstIdx_eq_some_iff (matchesCell b2.1 0) [] rows i2).1 hfi2
    simp only [Option.map_some']
    unfold writeEG
    rw [show i2 + 1 - 1 = i2 from rfl]
    have hrow2ne : rows.getD i2 [] ≠ [] := (matchesCell_true_facts hmatch2).1
    have hm2 : matchesCell b.1 0 (setCellsFrom (rows.getD i2 []) 4 ["X", date, b2.2]) =
        matchesCell b.1 0 (rows.getD i2 []) :=
      matchesCell_setCellsFrom b.1 (rows.getD i2 []) ["X", date, b2.2] hrow2ne
    have hii2 : i2 ≠ i := by
      intro he
      subst he
      have h1 := (matchesCell_true_facts hmatchi).2
      have h2 := (matchesCell_true_facts hmatch2).2
      exact hne (h2.symm.trans h1)
    refine ⟨i, ?_, ?_, ?_⟩
    · rw [firstIdx_set (matchesCell b.1 0) [] rows i2 _ hm2]
      exact hfi
    · rw [getD_set_ne [] _ rows i2 i hii2]
      exact hpay
    · rw [List.length_set]
      exact hilen
  | none =>
    simp only [Option.map_none']
    obtain ⟨hp2, hpLen⟩ := find_insert_position_bounds rows b2.1 0 hrows
    unfold insert_row
    have hjle : find_insert_position rows b2.1 0 - 1 ≤ rows.length := by omega
    have hnewm : matchesCell b.1 0 [b2.1, "", "", "", "X", date, b2.2] = false := by
      unfold matchesCell
      simp [hne]
    refine ⟨if i < find_insert_position rows b2.1 0 - 1 then i else i + 1, ?_, ?_, ?_⟩
    · rw [firstIdx_insert_of_neg (matchesCell b.1 0) rows _ _ hnewm hjle, hfi]
      rfl
    · rw [getD_insert_shift [] rows _ i _ hjle hilen]
      exact hpay
    · rw [insert_length rows _ _ hjle]
      by_cases hcmp : i < find_insert_position rows b2.1 0 - 1 <;> simp [hcmp] <;> omega

theorem update_or_insert_ne_nil (date : String) (rows : List (List String))
    (b : String × String) (hrows : rows ≠ []) :
    (update_or_insert_bag rows 0 date b).1 ≠ [] := by
  unfold update_or_insert_bag find_row_by_value
  cases hfi : firstIdx (matchesCell b.1 0) rows with
  | some i =>
    simp only [Option.map_some']
    unfold writeEG
    apply List.ne_nil_of_length_pos
    rw [List.length_set]
    exact List.length_pos.2 hrows
  | none =>
    simp only [Option.map_none']
    obtain ⟨hp2, hpLen⟩ := find_insert_position_bounds rows b.1 0 hrows
    unfold insert_row
    apply List.ne_nil_of_length_pos
    rw [insert_length rows _ _ (by omega)]
    omega

theorem update_bags_loop_good (date : String) :
    ∀ (bags : List (String × String)) (rows : List (List String)) (b : String × String),
      rows ≠ [] → GoodBag date rows b → (∀ b2 ∈ bags, b2.1 ≠ b.1) →
      GoodBag date (update_bags_loop 0 date rows bags) b := by
  intro bags
  induction bags with
  | nil =>
    intro rows b _ hg _
    exact hg
  | cons b0 bs ih =>
    intro rows b hrows hg hall
    show GoodBag date (update_bags_loop 0 date (update_or_insert_bag rows 0 date b0).1 bs) b
    exact ih _ b (update_or_insert_ne_nil date rows b0 hrows)
      (update_good_other date rows b b0 (hall b0 (by simp)) hrows hg)
      (fun b2 hb2 => hall b2 (by simp [hb2]))

theorem all_good_after_run (date : String) :
    ∀ (bags : List (String × String)) (rows : List (List String)),
      rows ≠ [] → (bags.map Prod.fst).Nodup →
      ∀ b ∈ bags, GoodBag date (update_bags_loop 0 date rows bags) b := by
  intro bags
  induction bags with
  | nil =>
    intro rows _ _ b hb
    simp at hb
  | cons b0 bs ih =>
    intro rows hrows hnodup b hb
    rw [List.map_cons, List.nodup_cons] at hnodup
    show GoodBag date (update_bags_loop 0 date (update_or_insert_bag rows 0 date b0).1 bs) b
    rcases List.mem_cons.1 hb with rfl | hbs
    · exact update_bags_loop_good date bs _ b (update_or_insert_ne_nil date rows b hrows)
        (update_good_self date rows b hrows)
        (fun b2 hb2 hbeq => hnodup.1 (hbeq ▸ List.mem_map_of_mem Prod.fst hb2))
    · exact ih _ (update_or_insert_ne_nil date rows b0 hrows) hnodup.2 b hbs

theorem update_bags_loop_identity (date : String) :
    ∀ (bags : List (String × String)) (rows : List (List String)),
      (∀ b ∈ bags, GoodBag date rows b) →
      update_bags_loop 0 date rows bags = rows := by
  intro bags
  induction bags with
  | nil =>
    intro rows _
    rfl
  | cons b0 bs ih =>
    intro rows hall
    show update_bags_loop 0 date (update_or_insert_bag rows 0 date b0).1 bs = rows
    rw [update_good_identity date rows b0 (hall b0 (by simp))]
    exact ih rows (fun b hb => hall b (by simp [hb]))

theorem update_or_insert_head (date : String) (header : List String)
    (rest : List (List String)) (b : String × String)
    (hH : matchesCell b.1 0 header = false) :
    ∃ rest1, (update_or_insert_bag (header :: rest) 0 date b).1 = header :: rest1 := by
  unfold update_or_insert_bag find_row_by_value
  cases hfi : firstIdx (matchesCell b.1 0) (header :: rest) with
  | some i =>
    simp only [Option.map_some']
    unfold writeEG
    rw [show i + 1 - 1 = i from rfl]
    have hi1 : ∃ i1, i = i1 + 1 := by
      rw [firstIdx, hH] at hfi
      simp only [Bool.false_eq_true, if_false, Option.map_eq_some'] at hfi
      obtain ⟨a, -, ha⟩ := hfi
      exact ⟨a, ha.symm⟩
    obtain ⟨i1, rfl⟩ := hi1
    rw [List.set_cons_succ]
    exact ⟨_, rfl⟩
  | none =>
    simp only [Option.map_none']
    obtain ⟨hp2, hpLen⟩ := find_insert_position_bounds (header :: rest) b.1 0 (by simp)
    unfold insert_row
    obtain ⟨k, hk⟩ : ∃ k, find_insert_position (header :: rest) b.1 0 - 1 = k + 1 :=
      ⟨find_insert_position (header :: rest) b.1 0 - 2, by omega⟩
    rw [hk, List.take_succ_cons, List.drop_succ_cons, List.cons_append]
    exact ⟨_, rfl⟩

theorem update_bags_loop_head (date : String) :
    ∀ (bags : List (String × String)) (header : List String) (rest : List (List String)),
      (∀ b ∈ bags, matchesCell b.1 0 header = false) →
      ∃ rest1, update_bags_loop 0 date (header :: rest) bags = header :: rest1 := by
  intro bags
  induction bags with
  | nil =>
    intro header rest _
    exact ⟨rest, rfl⟩
  | cons b0 bs ih =>
    intro header rest hall
    obtain ⟨rest1, h1⟩ := update_or_insert_head date header rest b0 (hall b0 (by simp))
    show ∃ rest2, update_bags_loop 0 date (update_or_insert_bag (header :: rest) 0 date b0).1 bs =
      header :: rest2
    rw [h1]
    exact ih header rest1 (fun b2 hb2 => hall b2 (by simp [hb2]))

/-- Claim C8 counterexample: with the Zaknummer column at sheet column B, the
row the first run inserts carries the bag id in column A, so the second
run with the same input does not find it and inserts a duplicate: running
reconciliation twice does not equal running it once. -/
theorem reconcile_twice_duplicates_row :
    update_bags_in_sheet
        (update_bags_in_sheet [["Kolom", "Zaknummer", "Verwerkt", "Verwerkingsdatum", "Bedrag"]]
          "d" [("7", "1")]) "d" [("7", "1")] ≠
      update_bags_in_sheet [["Kolom", "Zaknummer", "Verwerkt", "Verwerkingsdatum", "Bedrag"]]
        "d" [("7", "1")] := by decide

/-- Claim C8 (amended): when the Zaknummer column resolves to column A (index
0, the production layout), no aggregated bag id equals the header's key
cell and the aggregated bag ids are pairwise distinct, reconciliation is
idempotent: the second identical run finds every row the first run wrote
or inserted and rewrites the same marker, date and amount in place, so
the final ledger state after two runs equals the state after one. -/
theorem reconcile_twice_eq_once_when_key_col_A
    (header : List String) (rest : List (List String)) (date : String)
    (bags : List (String × String))
    (hheader : header ≠ [])
    (hreq : (["Zaknummer", "Verwerkt", "Verwerkingsdatum", "Bedrag"].all
        (fun c => (dictFind (get_column_names header) c).isSome)) = true)
    (hzak : (dictFind (get_column_names header) "Zaknummer").bind colIndexOfLetter = some 0)
    (hnodup : (bags.map Prod.fst).Nodup)
    (hhead : ∀ b ∈ bags, matchesCell b.1 0 header = false) :
    update_bags_in_sheet (update_bags_in_sheet (header :: rest) date bags) date bags =
      update_bags_in_sheet (header :: rest) date bags := by
  have hunfold : ∀ rest2 : List (List String),
      update_bags_in_sheet (header :: rest2) date bags =
        update_bags_loop 0 date (header :: rest2) bags := by
    intro rest2
    unfold update_bags_in_sheet
    dsimp only
    rw [if_neg hheader, if_pos hreq]
    simp only [hzak]
  obtain ⟨rest1, hrest1⟩ := update_bags_loop_head date bags header rest hhead
  have hgood := all_good_after_run date bags (header :: rest) (by simp) hnodup
  rw [hrest1] at hgood
  rw [hunfold rest, hrest1, hunfold rest1]
  exact update_bags_loop_identity date bags (header :: rest1) hgood

/-- Closed witness for the amended C8 on a concrete one-bag ledger with
the key column at A: two runs end in the same state as one run. -/
theorem reconcile_twice_eq_once_when_key_col_A_witness :
    update_bags_in_sheet
        (update_bags_in_sheet
          (["Zaknummer", "Bron", "Type", "Datum", "Verwerkt", "Verwerkingsdatum", "Bedrag"] ::
            [["9"]]) "d" [("7", "1")]) "d" [("7", "1")] =
      update_bags_in_sheet
        (["Zaknummer", "Bron", "Type", "Datum", "Verwerkt", "Verwerkingsdatum", "Bedrag"] ::
          [["9"]]) "d" [("7", "1")] :=
  reconcile_twice_eq_once_when_key_col_A
    ["Zaknummer", "Bron", "Type", "Datum", "Verwerkt", "Verwerkingsdatum", "Bedrag"]
    [["9"]] "d" [("7", "1")]
    (by decide) (by decide) (by decide) (by decide) (by decide)

end Statiegeld
